import Mathlib

/-!
# Verification of the lambda-toolkit HTTP handler pipeline and utilities

This development gives a shallow embedding, in Lean, of the parts of the
`lambda-toolkit` TypeScript library that its specification talks about:

* a model of JSON values with a serializer mirroring `JSON.stringify`
  (as used at `src/lambda/http-handler/http-handler.ts` line 63) and a
  deserializer modelling `JSON.parse`, with a proved round-trip theorem;
* `getHeaders` from `src/lambda/headers/headers.ts`;
* `errorHandler` from `src/lambda/error-handler/error-handler.ts`;
* the base handler built by `withHttpHandler` in
  `src/lambda/http-handler/http-handler.ts`, composed with a model of the
  `@middy/http-error-handler` middleware attached there;
* `stripInternalKeys` from `src/dynamodb/strip-internal-keys/strip-internal-keys.ts`;
* the environment-variable getters from `src/config-manager/getters.ts`.

Numbers in the JSON model are integers: the embedding covers the
integer-valued fragment of JavaScript numbers, on which `JSON.stringify`
and `JSON.parse` are exact.
-/

/-- A JSON-serializable JavaScript value, as handled by `JSON.stringify` in
the success branch of the wrapped handler.  Numbers are modelled as integers
(the fragment on which JavaScript serialization is exact). -/
inductive Json where
  | null
  | bool (b : Bool)
  | num (n : Int)
  | str (s : String)
  | arr (elems : List Json)
  | obj (fields : List (String × Json))
deriving Repr

/-- The character for a decimal digit value below ten. -/
def digitChar10 (d : Nat) : Char := Char.ofNat (48 + d)

/-- The numeric value of a decimal digit character. -/
def charDigitVal (c : Char) : Nat := c.toNat - 48

/-- Decimal digit characters of a natural number, most significant first,
exactly as JavaScript number-to-string conversion prints a non-negative
integer. -/
def natChars (n : Nat) : List Char :=
  if n = 0 then List.cons '0' []
  else ((Nat.digits 10 n).map digitChar10).reverse

/-- Decimal characters of an integer: an optional minus sign followed by the
digits, as JavaScript prints an integer-valued number. -/
def intChars (i : Int) : List Char :=
  if i < 0 then '-' :: natChars i.natAbs else natChars i.natAbs

/-- Lower-case hexadecimal digit character for a value below sixteen, as used
by the `\u00XX` escapes that `JSON.stringify` produces for control
characters. -/
def hexDigit (n : Nat) : Char :=
  if n < 10 then Char.ofNat (48 + n) else Char.ofNat (87 + n)

/-- JSON escaping of one character, as performed by `JSON.stringify` on the
characters of a string: the two mandatory escapes, the five short control
escapes, `\u00XX` for the remaining control characters, and every other
character copied verbatim. -/
def escChar (c : Char) : List Char :=
  if c = '"' then ['\\', '"']
  else if c = '\\' then ['\\', '\\']
  else if c = Char.ofNat 8 then ['\\', 'b']
  else if c = Char.ofNat 12 then ['\\', 'f']
  else if c = '\n' then ['\\', 'n']
  else if c = '\r' then ['\\', 'r']
  else if c = '\t' then ['\\', 't']
  else if c.toNat < 32 then
    '\\' :: ('u' :: ('0' :: ('0' ::
      [hexDigit (c.toNat / 16), hexDigit (c.toNat % 16)])))
  else [c]

/-- A JSON string literal: quote, escaped characters, quote. -/
def strChars (s : String) : List Char :=
  '"' :: (s.data.flatMap escChar ++ ['"'])

mutual
/-- Characters of the serialized form of a value, mirroring
`JSON.stringify(value)` (which emits no whitespace). -/
def renderJ : Json → List Char
  | .null => 'n' :: ['u', 'l', 'l']
  | .bool true => 't' :: ['r', 'u', 'e']
  | .bool false => 'f' :: ['a', 'l', 's', 'e']
  | .num i => intChars i
  | .str s => strChars s
  | .arr es => '[' :: (renderItems es ++ [']'])
  | .obj ms => '{' :: (renderFields ms ++ ['}'])

/-- Comma-separated renderings of array elements. -/
def renderItems : List Json → List Char
  | e :: es => renderJ e ++ renderMoreItems es
  | [] => []

/-- The tail of an element list, each element preceded by a comma. -/
def renderMoreItems : List Json → List Char
  | e :: es => ',' :: (renderJ e ++ renderMoreItems es)
  | [] => []

/-- Comma-separated renderings of object members, each a key literal, a
colon, and the value. -/
def renderFields : List (String × Json) → List Char
  | kv :: ms => strChars kv.1 ++ (':' :: (renderJ kv.2 ++ renderMoreFields ms))
  | [] => []

/-- The tail of a member list, each member preceded by a comma. -/
def renderMoreFields : List (String × Json) → List Char
  | kv :: ms =>
      ',' :: (strChars kv.1 ++ (':' :: (renderJ kv.2 ++ renderMoreFields ms)))
  | [] => []
end

/-- `JSON.stringify`, restricted to the modelled value domain: the string of
the rendered characters. -/
def Json.stringify (v : Json) : String := String.mk (renderJ v)

/-- Whether a character is a decimal digit. -/
def isDigitChar (c : Char) : Bool := 48 ≤ c.toNat && c.toNat ≤ 57

/-- Splits a character list into its leading run of decimal digits and the
remainder. -/
def digitsSpan : List Char → List Char × List Char
  | [] => ([], [])
  | c :: cs =>
    if isDigitChar c then
      let p := digitsSpan cs
      (c :: p.1, p.2)
    else ([], c :: cs)

/-- Reads a most-significant-first digit-character list as a natural
number. -/
def readNat (ds : List Char) : Nat :=
  ds.foldl (fun a c => 10 * a + charDigitVal c) 0

/-- The value of one hexadecimal digit character, if it is one. -/
def hexNibble (c : Char) : Option Nat :=
  if isDigitChar c then some (charDigitVal c)
  else if 97 ≤ c.toNat && c.toNat ≤ 102 then some (c.toNat - 87)
  else if 65 ≤ c.toNat && c.toNat ≤ 70 then some (c.toNat - 55)
  else none

/-- Decoding of a single-character JSON string escape. -/
def unescapeChar (e : Char) : Option Char :=
  if e = '"' ∨ e = '\\' ∨ e = '/' then some e
  else if e = 'n' then some '\n'
  else if e = 't' then some '\t'
  else if e = 'r' then some '\r'
  else if e = 'b' then some (Char.ofNat 8)
  else if e = 'f' then some (Char.ofNat 12)
  else none

/-- Parses the body of a JSON string literal after its opening quote,
accumulating decoded characters in reverse; stops at the closing quote. -/
def parseStrBody (acc : List Char) : List Char → Option (String × List Char)
  | '"' :: rest => some (String.mk acc.reverse, rest)
  | '\\' :: 'u' :: a :: b :: c :: d :: rest =>
      match hexNibble a, hexNibble b, hexNibble c, hexNibble d with
      | some va, some vb, some vc, some vd =>
          parseStrBody (Char.ofNat (((va * 16 + vb) * 16 + vc) * 16 + vd) :: acc) rest
      | _, _, _, _ => none
  | '\\' :: e :: rest =>
      match unescapeChar e with
      | some ch => parseStrBody (ch :: acc) rest
      | none => none
  | c :: rest => parseStrBody (c :: acc) rest
  | [] => none

mutual
/-- Recursive-descent JSON value parser, modelling `JSON.parse` on the
whitespace-free integer-numeral fragment of JSON (exactly the grammar
`JSON.stringify` emits on the modelled domain).  Structural on a fuel
counter; returns the parsed value and the unconsumed remainder. -/
def parseVal : Nat → List Char → Option (Json × List Char)
  | 0, _ => none
  | fuel + 1, input =>
    match input with
    | 'n' :: ('u' :: ('l' :: ('l' :: r))) => some (.null, r)
    | 't' :: ('r' :: ('u' :: ('e' :: r))) => some (.bool true, r)
    | 'f' :: ('a' :: ('l' :: ('s' :: ('e' :: r)))) => some (.bool false, r)
    | '"' :: r => (parseStrBody [] r).map (fun p => (.str p.1, p.2))
    | '[' :: r =>
        match r with
        | ']' :: r2 => some (.arr [], r2)
        | _ => (parseItems fuel r).map (fun p => (.arr p.1, p.2))
    | '{' :: r =>
        match r with
        | '}' :: r2 => some (.obj [], r2)
        | _ => (parseFields fuel r).map (fun p => (.obj p.1, p.2))
    | '-' :: r =>
        match digitsSpan r with
        | ([], _) => none
        | (ds, r2) => some (.num (-(readNat ds : Int)), r2)
    | c :: r =>
        if isDigitChar c then
          match digitsSpan (c :: r) with
          | (ds, r2) => some (.num (readNat ds : Int), r2)
        else none
    | [] => none

/-- Parses one or more comma-separated array elements up to the closing
bracket. -/
def parseItems : Nat → List Char → Option (List Json × List Char)
  | 0, _ => none
  | fuel + 1, input =>
    match parseVal fuel input with
    | none => none
    | some (v, r) =>
      match r with
      | ',' :: r2 => (parseItems fuel r2).map (fun p => (v :: p.1, p.2))
      | ']' :: r2 => some ([v], r2)
      | _ => none

/-- Parses one or more comma-separated object members up to the closing
brace. -/
def parseFields : Nat → List Char → Option (List (String × Json) × List Char)
  | 0, _ => none
  | fuel + 1, input =>
    match input with
    | '"' :: r =>
      match parseStrBody [] r with
      | none => none
      | some (k, r1) =>
        match r1 with
        | ':' :: r2 =>
          match parseVal fuel r2 with
          | none => none
          | some (v, r3) =>
            match r3 with
            | ',' :: r4 => (parseFields fuel r4).map (fun p => ((k, v) :: p.1, p.2))
            | '}' :: r4 => some ([(k, v)], r4)
            | _ => none
        | _ => none
    | _ => none
end

/-- `JSON.parse`, modelled on the same fragment: parses the whole string as
one JSON value, rejecting trailing characters; `none` stands for a thrown
`SyntaxError`. -/
def Json.deserialize (s : String) : Option Json :=
  match parseVal (s.data.length + 1) s.data with
  | some (v, []) => some v
  | _ => none

/-- Whether a remainder cannot extend a numeral: empty or not digit-headed.
Every separator the serializer emits after a value qualifies. -/
def stopsNum : List Char → Bool
  | [] => true
  | c :: _ => !isDigitChar c

mutual
/-- Fuel measure of a value: enough parser steps to consume its rendering. -/
def jsize : Json → Nat
  | .arr es => 1 + jsizeItems es
  | .obj ms => 1 + jsizeFields ms
  | _ => 1

/-- Fuel measure of an element list. -/
def jsizeItems : List Json → Nat
  | e :: es => 1 + jsize e + jsizeItems es
  | [] => 0

/-- Fuel measure of a member list. -/
def jsizeFields : List (String × Json) → Nat
  | kv :: ms => 1 + jsize kv.2 + jsizeFields ms
  | [] => 0
end

/-- A header value: the source type `StageHeaders` is
`Record<string, string | boolean>`. -/
inductive HVal where
  | str (s : String)
  | bool (b : Bool)
deriving Repr, DecidableEq

/-- A JavaScript object with string keys, modelled as an association list in
insertion order with unique keys (looked up by first occurrence). -/
abbrev JsObj (α : Type) : Type := List (String × α)

/-- The eleven default security and CORS headers of `getHeaders`, in the
order of the object literal in `src/lambda/headers/headers.ts`. -/
def defaultHeaders : JsObj HVal :=
  [("Content-Type", .str ("application/json")),
   ("Content-Security-Policy", .str ("default-src \x27self\x27")),
   ("Strict-Transport-Security",
     .str ("max-age=31536000; includeSubDomains; preload")),
   ("X-Content-Type-Options", .str ("nosniff")),
   ("X-Frame-Options", .str ("DENY")),
   ("X-XSS-Protection", .str ("1; mode=block")),
   ("Referrer-Policy", .str ("no-referrer")),
   ("Permissions-Policy", .str ("geolocation=(), microphone=()")),
   ("Access-Control-Allow-Methods", .str ("GET,POST,OPTIONS")),
   ("Access-Control-Allow-Headers", .str ("Content-Type, Authorization")),
   ("Access-Control-Allow-Credentials", .bool true)]

/-- JavaScript object-spread of `over` after `base` (the `... base , ... over`
object literal): keys of `base` keep their position, taking the overriding
value when `over` has the key; keys only in `over` are appended. -/
def spreadMerge (base over : JsObj HVal) : JsObj HVal :=
  base.map (fun kv => (kv.1, ((over.lookup kv.1).getD kv.2)))
    ++ over.filter (fun kv => (base.lookup kv.1).isNone)

/-- `getHeaders` from `src/lambda/headers/headers.ts`: the default headers
spread together with the optional overrides, overrides winning per key. -/
def getHeaders (overrides : Option (JsObj HVal)) : JsObj HVal :=
  spreadMerge defaultHeaders (overrides.getD [])

/-- A thrown JavaScript value as the error path sees it: an `Error` instance
carrying its `name` and `message` fields, or any non-`Error` value together
with its string conversion. -/
inductive Thrown where
  | err (name message : String)
  | nonError (display : String)
deriving Repr, DecidableEq

/-- JavaScript string interpolation of a thrown value, as used by the
`private error:` log line (an `Error` displays as `name: message`). -/
def Thrown.display : Thrown → String
  | .err n m => n ++ (": ") ++ m
  | .nonError d => d

/-- One `logger.error` call: a bare message, or a message with the structured
`errorName`/`statusCode` context object `errorHandler` passes. -/
inductive LogCall where
  | msg (s : String)
  | structured (s : String) (errorName : String) (statusCode : Nat)
deriving Repr, DecidableEq

/-- An error value from the `http-errors` package (`createError.BadRequest`
and friends): status code, message, and the package's `expose` flag, which
defaults to true exactly below 500. -/
structure HttpError where
  statusCode : Nat
  message : String
  expose : Bool
deriving Repr, DecidableEq

/-- `createError` of the `http-errors` package at a given status. -/
def createHttpError (status : Nat) (message : String) : HttpError :=
  ⟨status, message, decide (status < 500)⟩

/-- The `APIGatewayProxyResult` values the pipeline produces: status code,
headers object, and string body. -/
structure ApiResult where
  statusCode : Nat
  headers : JsObj HVal
  body : String
deriving Repr, DecidableEq

/-- `errorHandler` from `src/lambda/error-handler/error-handler.ts`.  The
list records the `logger.error` calls in order.  The `Except` value is the
control-flow result: `.error` is the thrown `HttpError`, while `.ok` would be
a normal return of the declared `APIGatewayProxyResult` type (the source ends
every path in a `throw`, which the theorems below make precise). -/
def errorHandler (error : Thrown) : List LogCall × Except HttpError ApiResult :=
  let rawLog := LogCall.msg (("private error: ") ++ error.display)
  match error with
  | .err name message =>
      if name = ("ValidationError") then
        ([rawLog, .structured message message 400],
         .error (createHttpError 400 message))
      else if name = ("ResourceNotFound") then
        ([rawLog, .structured message message 404],
         .error (createHttpError 404 message))
      else if name = ("ConflictError") then
        ([rawLog, .structured message message 409],
         .error (createHttpError 409 message))
      else if name = ("TooManyRequestsError") then
        ([rawLog, .structured message message 429],
         .error (createHttpError 429 message))
      else if name = ("UnauthorisedError") then
        ([rawLog, .structured message message 401],
         .error (createHttpError 401 message))
      else if name = ("ForbiddenError") then
        ([rawLog, .structured message message 403],
         .error (createHttpError 403 message))
      else
        ([rawLog,
          .structured ("An error has occurred") ("An error has occurred") 500],
         .error (createHttpError 500 ("An error has occurred")))
  | .nonError _ =>
      ([rawLog,
        .structured ("An error has occurred") ("An error has occurred") 500],
       .error (createHttpError 500 ("An error has occurred")))

/-- The business function result type of `withHttpHandler`:
`statusCode?: number; body: unknown`. -/
structure HandlerResult where
  statusCode : Option Nat
  body : Json

/-- The `baseHandler` closure inside `withHttpHandler`
(`src/lambda/http-handler/http-handler.ts` lines 54 to 69), as a function of
the business function's outcome: a normal `HandlerResult` or a thrown value.
Returns the `logger.error` calls made during the invocation and the
control-flow result, where `.error` is an exception leaving `baseHandler`. -/
def baseHandler (outcome : Except Thrown HandlerResult) :
    List LogCall × Except HttpError ApiResult :=
  match outcome with
  | .ok result =>
      ([], .ok { statusCode := result.statusCode.getD 200,
                 headers := getHeaders none,
                 body := Json.stringify result.body })
  | .error error =>
      let catchLog := LogCall.msg (match error with
        | .err _ m => m
        | .nonError _ => ("Unknown error"))
      let handled := errorHandler error
      (catchLog :: handled.1, handled.2)

/-- The client-visible error body of the pipeline:
an object with `error` and `statusCode` fields. -/
def errorBody (message : String) (statusCode : Nat) : Json :=
  .obj [("error", .str message), ("statusCode", .num (statusCode : Int))]

/-- Modelled from the spec: the `@middy/http-error-handler` middleware that
`withHttpHandler` attaches with fallback message `An error has occurred`.
Its source lives in the external `@middy/http-error-handler` npm package, not
in this repository, so the conversion is taken from spec section 4.1 step 3d
and section 6: a thrown error becomes a normalized response carrying the
error's status code, the merged default headers, and the serialized body with
fields `error` and `statusCode`. -/
def middyOnError (h : HttpError) : ApiResult :=
  { statusCode := h.statusCode,
    headers := getHeaders none,
    body := Json.stringify (errorBody h.message h.statusCode) }

/-- One invocation of the handler `withHttpHandler` builds: `baseHandler`
behind the error-handling middleware.  The final `Except` is what the caller
of the pipeline observes: `.ok` a response, `.error` an exception escaping
the whole pipeline. -/
def invokePipeline (outcome : Except Thrown HandlerResult) :
    List LogCall × Except HttpError ApiResult :=
  let ran := baseHandler outcome
  match ran.2 with
  | .ok r => (ran.1, .ok r)
  | .error h => (ran.1, .ok (middyOnError h))

/-- The six known error kinds of the spec's closed `ErrorKind` taxonomy
(`Unknown` is the default, not listed). -/
inductive ErrorKind where
  | validation
  | unauthorised
  | forbidden
  | notFound
  | conflict
  | tooManyRequests
deriving Repr, DecidableEq

/-- The `name` tag the `errorHandler` switch matches for each kind, as set by
the corresponding error class constructor in `src/errors`. -/
def ErrorKind.tag : ErrorKind → String
  | .validation => ("ValidationError")
  | .unauthorised => ("UnauthorisedError")
  | .forbidden => ("ForbiddenError")
  | .notFound => ("ResourceNotFound")
  | .conflict => ("ConflictError")
  | .tooManyRequests => ("TooManyRequestsError")

/-- The fixed kind-to-status table of spec section 6. -/
def ErrorKind.status : ErrorKind → Nat
  | .validation => 400
  | .unauthorised => 401
  | .forbidden => 403
  | .notFound => 404
  | .conflict => 409
  | .tooManyRequests => 429

/-- The six tags recognised by the `errorHandler` switch. -/
def knownTags : List String :=
  [("ValidationError"), ("ResourceNotFound"), ("ConflictError"),
   ("TooManyRequestsError"), ("UnauthorisedError"), ("ForbiddenError")]

/-- Whether a thrown value carries one of the six known kind tags. -/
def knownThrown : Thrown → Bool
  | .err name _ => knownTags.contains name
  | .nonError _ => false

/-- The default internal keys stripped by `stripInternalKeys`
(`src/dynamodb/strip-internal-keys/strip-internal-keys.ts`). -/
def defaultKeysToStrip : List String :=
  [("pk"), ("sk"), ("PK"), ("SK"), ("TTL"), ("ttl"),
   ("gsi1pk"), ("gsi1sk"), ("gsi2pk"), ("gsi2sk"), ("gsi3pk"), ("gsi3sk")]

/-- JavaScript `delete copy[key]` on an object copy: removes the entry for
the key (objects hold each key at most once). -/
def deleteKey {α : Type} (o : JsObj α) (k : String) : JsObj α :=
  o.filter (fun kv => !(kv.1 == k))

/-- `stripInternalKeys` from
`src/dynamodb/strip-internal-keys/strip-internal-keys.ts`: shallow-copies the
item, concatenates the two strip-key lists (every modelled key is a string,
so the `typeof` filter on the extra keys keeps them all), and deletes each
listed key that is present in the copy.  The input object itself is left
untouched: only the copy is mutated. -/
def stripInternalKeys {α : Type} (item : JsObj α)
    (keysToStrip : List String) (extraKeysToStrip : List String) : JsObj α :=
  let copy := item
  let allKeysToStrip := keysToStrip ++ extraKeysToStrip
  allKeysToStrip.foldl
    (fun c k => if (c.lookup k).isSome then deleteKey c k else c) copy

/-- The environment, `process.env`: variable name to optional string. -/
abbrev Env := String → Option String

/-- A value of the automatically detected type returned by the
config-manager getter `get`: string, number, or boolean. -/
inductive Prim where
  | str (s : String)
  | num (n : Int)
  | bool (b : Bool)
deriving Repr, DecidableEq

/-- Whether a character is JavaScript whitespace (the common ASCII forms). -/
def isJsWs (c : Char) : Bool :=
  c = ' ' || c = '\t' || c = '\n' || c = '\r' || c = Char.ofNat 11
    || c = Char.ofNat 12

/-- JavaScript `String.prototype.trim()`, on the ASCII whitespace forms:
drops leading and trailing whitespace characters. -/
def jsTrim (s : String) : String :=
  String.mk (((s.data.dropWhile isJsWs).reverse.dropWhile isJsWs).reverse)

/-- One character of JavaScript `String.prototype.toLowerCase()`, on the
ASCII range. -/
def lowerChar (c : Char) : Char :=
  if 'A' ≤ c ∧ c ≤ 'Z' then Char.ofNat (c.toNat + 32) else c

/-- JavaScript `String.prototype.toLowerCase()`, on the ASCII range. -/
def jsToLower (s : String) : String := String.mk (s.data.map lowerChar)

/-- Modelled from the JavaScript `Number(string)` conversion as used by
`getNumber` (a runtime builtin, not repository code), restricted to
optional-sign decimal integer numerals with optional surrounding whitespace;
`none` stands for `NaN`.  Fractional, exponent, hexadecimal and infinity
forms lie outside the modelled domain. -/
def jsNumber (s : String) : Option Int :=
  match (jsTrim s).data with
  | [] => some 0
  | '-' :: ds =>
      if !ds.isEmpty && ds.all isDigitChar then some (-(readNat ds : Int))
      else none
  | '+' :: ds =>
      if !ds.isEmpty && ds.all isDigitChar then some (readNat ds : Int)
      else none
  | ds =>
      if ds.all isDigitChar then some (readNat ds : Int) else none

/-- `getString` from `src/config-manager/getters.ts`: the variable must be
present with length between 1 and 1000 (the zod error text is collapsed to a
fixed message, which no property here inspects). -/
def getString (env : Env) (variableName : String) : Except String String :=
  match env variableName with
  | some v =>
      if 1 ≤ v.length ∧ v.length ≤ 1000 then .ok v
      else .error (("Invalid environment variable: ") ++ variableName)
  | none => .error (("Invalid environment variable: ") ++ variableName)

/-- `getBoolean` from `src/config-manager/getters.ts`: length 4 to 5, and
the lower-cased value must be `true` or `false`. -/
def getBoolean (env : Env) (variableName : String) : Except String Bool :=
  match env variableName with
  | some v =>
      if 4 ≤ v.length ∧ v.length ≤ 5 then
        if jsToLower v = ("true") then .ok true
        else if jsToLower v = ("false") then .ok false
        else .error (("Invalid environment variable: ") ++ variableName)
      else .error (("Invalid environment variable: ") ++ variableName)
  | none => .error (("Invalid environment variable: ") ++ variableName)

/-- `getNumber` from `src/config-manager/getters.ts`: length 1 to 10, not
only whitespace, and `Number(value)` must not be `NaN`. -/
def getNumber (env : Env) (variableName : String) : Except String Int :=
  match env variableName with
  | some v =>
      if 1 ≤ v.length ∧ v.length ≤ 10 then
        if 0 < (jsTrim v).length then
          match jsNumber v with
          | some n => .ok n
          | none => .error (("Invalid environment variable: ") ++ variableName)
        else .error (("Invalid environment variable: ") ++ variableName)
      else .error (("Invalid environment variable: ") ++ variableName)
  | none => .error (("Invalid environment variable: ") ++ variableName)

/-- The per-variable body of the automatic type-detection getter `get`:
boolean is tried first, then number, then string; each failed attempt is a
caught exception. -/
def getAuto (env : Env) (variableName : String) : Except String Prim :=
  match getBoolean env variableName with
  | .ok b => .ok (.bool b)
  | .error _ =>
      match getNumber env variableName with
      | .ok n => .ok (.num n)
      | .error _ =>
          match getString env variableName with
          | .ok s => .ok (.str s)
          | .error e => .error e

/-- `get` from `src/config-manager/getters.ts`: the per-variable detection
mapped over the requested names; the first failure aborts (a thrown
validation error in the source). -/
def get (env : Env) (variableNames : List String) : Except String (List Prim) :=
  variableNames.mapM (getAuto env)

/-- The concrete environment of the C10 scenario: one variable `FLAG` set to
the numeric string `007` with leading zeros. -/
def env007 : Env := fun name => if name = ("FLAG") then some ("007") else none

theorem digitChar10_val {d : Nat} (h : d < 10) :
    charDigitVal (digitChar10 d) = d ∧ isDigitChar (digitChar10 d) = true := by
  interval_cases d <;> exact ⟨by decide, by decide⟩

theorem natChars_all_digits (n : Nat) :
    ∀ c ∈ natChars n, isDigitChar c = true := by
  intro c hc
  unfold natChars at hc
  by_cases h0 : n = 0
  · simp [h0] at hc
    subst hc
    decide
  · simp only [h0, if_false, List.mem_reverse, List.mem_map] at hc
    obtain ⟨d, hd, rfl⟩ := hc
    exact (digitChar10_val (Nat.digits_lt_base (by omega) hd)).2

theorem natChars_ne_nil (n : Nat) : natChars n ≠ [] := by
  unfold natChars
  by_cases h0 : n = 0
  · simp [h0]
  · simp only [h0, if_false, ne_eq, List.reverse_eq_nil_iff, List.map_eq_nil_iff]
    exact Nat.digits_ne_nil_iff_ne_zero.mpr h0

theorem readNat_natChars (n : Nat) : readNat (natChars n) = n := by
  unfold natChars readNat
  by_cases h0 : n = 0
  · simp [h0, charDigitVal]
  · simp only [h0, if_false]
    rw [List.foldl_reverse, List.foldr_map]
    have key : ∀ L : List Nat, (∀ d ∈ L, d < 10) →
        L.foldr (fun d a => 10 * a + charDigitVal (digitChar10 d)) 0
          = Nat.ofDigits 10 L := by
      intro L
      induction L with
      | nil => intro; simp [Nat.ofDigits_nil]
      | cons d L ih =>
          intro hall
          have hd : d < 10 := hall d (by simp)
          simp only [List.foldr_cons, Nat.ofDigits_cons,
            ih (fun x hx => hall x (by simp [hx])), (digitChar10_val hd).1]
          omega
    rw [key _ (fun d hd => Nat.digits_lt_base (by omega) hd), Nat.ofDigits_digits]

theorem digitsSpan_stop {rest : List Char} (h : stopsNum rest = true) :
    digitsSpan rest = ([], rest) := by
  cases rest with
  | nil => rfl
  | cons c t =>
      simp only [stopsNum, Bool.not_eq_true'] at h
      simp [digitsSpan, h]

theorem digitsSpan_run {ds : List Char} (hds : ∀ c ∈ ds, isDigitChar c = true)
    {rest : List Char} (hrest : stopsNum rest = true) :
    digitsSpan (ds ++ rest) = (ds, rest) := by
  induction ds with
  | nil => simpa using digitsSpan_stop hrest
  | cons c t ih =>
      have hsub : ∀ x ∈ t, isDigitChar x = true := fun x hx =>
        hds x (List.mem_cons_of_mem c hx)
      simp only [List.cons_append, digitsSpan,
        hds c (List.mem_cons_self c t), if_true]
      simp [ih hsub]

theorem natChars_head (n : Nat) :
    ∃ c t, natChars n = c :: t ∧ isDigitChar c = true := by
  match h : natChars n with
  | [] => exact absurd h (natChars_ne_nil n)
  | c :: t => exact ⟨c, t, rfl, natChars_all_digits n c (h ▸ List.mem_cons_self ..)⟩

theorem digit_char_notin {c x : Char} (h : isDigitChar c = true)
    (hx : isDigitChar x = false) : c ≠ x := by
  intro e
  rw [e, hx] at h
  cases h

theorem digit_char_ne {c : Char} (h : isDigitChar c = true) :
    c ≠ '-' ∧ c ≠ 'n' ∧ c ≠ '[' ∧ c ≠ 't' ∧ c ≠ '{' ∧ c ≠ 'f' ∧ c ≠ '"'
      ∧ c ≠ ']' ∧ c ≠ ',' ∧ c ≠ '}' ∧ c ≠ ':' ∧ c ≠ '\\' :=
  ⟨digit_char_notin h (by decide), digit_char_notin h (by decide),
   digit_char_notin h (by decide), digit_char_notin h (by decide),
   digit_char_notin h (by decide), digit_char_notin h (by decide),
   digit_char_notin h (by decide), digit_char_notin h (by decide),
   digit_char_notin h (by decide), digit_char_notin h (by decide),
   digit_char_notin h (by decide), digit_char_notin h (by decide)⟩

theorem hexNibble_hexDigit {n : Nat} (h : n < 16) :
    hexNibble (hexDigit n) = some n := by
  interval_cases n <;> decide

theorem parseStrBody_esc (c : Char) (acc rest : List Char) :
    parseStrBody acc (escChar c ++ rest) = parseStrBody (c :: acc) rest := by
  unfold escChar
  by_cases g1 : c = '"'
  · subst g1; simp [parseStrBody, unescapeChar]
  by_cases g2 : c = '\\'
  · subst g2; simp [g1, parseStrBody, unescapeChar]
  by_cases g3 : c = Char.ofNat 8
  · subst g3; simp [g1, g2, parseStrBody, unescapeChar]
  by_cases g4 : c = Char.ofNat 12
  · subst g4; simp [g1, g2, g3, parseStrBody, unescapeChar]
  by_cases g5 : c = '\n'
  · subst g5; simp [g1, g2, g3, g4, parseStrBody, unescapeChar]
  by_cases g6 : c = '\r'
  · subst g6; simp [g1, g2, g3, g4, g5, parseStrBody, unescapeChar]
  by_cases g7 : c = '\t'
  · subst g7; simp [g1, g2, g3, g4, g5, g6, parseStrBody, unescapeChar]
  by_cases g8 : c.toNat < 32
  · simp only [g1, g2, g3, g4, g5, g6, g7, g8, if_true, if_false, ite_true,
      ite_false, List.cons_append, List.nil_append]
    have hhi : c.toNat / 16 < 16 := by omega
    have hlo : c.toNat % 16 < 16 := by omega
    have h00 : hexNibble '0' = some 0 := by decide
    simp only [parseStrBody, h00, hexNibble_hexDigit hhi, hexNibble_hexDigit hlo]
    have hcv : (((0 : Nat) * 16 + 0) * 16 + c.toNat / 16) * 16 + c.toNat % 16
        = c.toNat := by omega
    simp only [hcv, Char.ofNat_toNat]
  · simp only [g1, g2, g3, g4, g5, g6, g7, g8, if_false, ite_false,
      List.cons_append, List.nil_append]
    rw [parseStrBody.eq_def]
    simp [g1, g2]

theorem parseStrBody_flat (L : List Char) :
    ∀ (acc rest : List Char),
      parseStrBody acc (L.flatMap escChar ++ '"' :: rest)
        = some (String.mk (acc.reverse ++ L), rest) := by
  induction L with
  | nil => intro acc rest; simp [parseStrBody]
  | cons c L ih =>
      intro acc rest
      rw [List.flatMap_cons, List.append_assoc, parseStrBody_esc, ih]
      simp

theorem parseStrBody_strChars (s : String) (rest : List Char) :
    parseStrBody [] (s.data.flatMap escChar ++ '"' :: rest) = some (s, rest) := by
  rw [parseStrBody_flat]
  simp

theorem jsize_pos (v : Json) : 1 ≤ jsize v := by
  cases v <;> simp [jsize]

theorem renderJ_head (v : Json) :
    ∃ c t, renderJ v = c :: t ∧ c ≠ ']' ∧ c ≠ '}' := by
  cases v with
  | null =>
      refine ⟨'n', ['u', 'l', 'l'], ?_, by decide, by decide⟩
      simp [renderJ]
  | bool b =>
      cases b with
      | false =>
          refine ⟨'f', ['a', 'l', 's', 'e'], ?_, by decide, by decide⟩
          simp [renderJ]
      | true =>
          refine ⟨'t', ['r', 'u', 'e'], ?_, by decide, by decide⟩
          simp [renderJ]
  | num i =>
      by_cases hneg : i < 0
      · refine ⟨'-', natChars i.natAbs, ?_, by decide, by decide⟩
        simp [renderJ, intChars, hneg]
      · obtain ⟨c0, t0, h0, hc0⟩ := natChars_head i.natAbs
        have hne := digit_char_ne hc0
        refine ⟨c0, t0, ?_, hne.2.2.2.2.2.2.2.1, hne.2.2.2.2.2.2.2.2.2.1⟩
        simp [renderJ, intChars, hneg, h0]
  | str s =>
      refine ⟨'"', s.data.flatMap escChar ++ ['"'], ?_, by decide, by decide⟩
      simp [renderJ, strChars]
  | arr es =>
      refine ⟨'[', renderItems es ++ [']'], ?_, by decide, by decide⟩
      simp [renderJ]
  | obj ms =>
      refine ⟨'{', renderFields ms ++ ['}'], ?_, by decide, by decide⟩
      simp [renderJ]

theorem moreItems_stop (es : List Json) (rest : List Char) :
    stopsNum (renderMoreItems es ++ (']' :: rest)) = true := by
  cases es <;> simp [renderMoreItems, stopsNum, isDigitChar]

theorem moreFields_stop (ms : List (String × Json)) (rest : List Char) :
    stopsNum (renderMoreFields ms ++ ('}' :: rest)) = true := by
  cases ms with
  | nil => simp [renderMoreFields, stopsNum, isDigitChar]
  | cons m ms =>
      obtain ⟨k, v⟩ := m
      simp [renderMoreFields, stopsNum, isDigitChar]

theorem parseVal_arr_step (f : Nat) (e : Json) (es : List Json)
    (rest : List Char) :
    parseVal (f + 1) ('[' :: (renderJ e ++ (renderMoreItems es ++ (']' :: rest))))
      = (parseItems f (renderJ e ++ (renderMoreItems es ++ (']' :: rest)))).map
          (fun p => (.arr p.1, p.2)) := by
  obtain ⟨c, t, hcons, hbr, _⟩ := renderJ_head e
  rw [hcons, List.cons_append]
  simp [parseVal, hbr]

theorem parseVal_obj_step (f : Nat) (k : String) (v : Json)
    (ms : List (String × Json)) (rest : List Char) :
    parseVal (f + 1)
        ('{' :: (renderFields ((k, v) :: ms) ++ ('}' :: rest)))
      = (parseFields f (renderFields ((k, v) :: ms) ++ ('}' :: rest))).map
          (fun p => (.obj p.1, p.2)) := by
  have hshape : renderFields ((k, v) :: ms) ++ ('}' :: rest)
      = '"' :: ((k.data.flatMap escChar ++ ['"'])
          ++ ((':' :: (renderJ v ++ renderMoreFields ms)) ++ ('}' :: rest))) := by
    simp [renderFields, strChars, List.append_assoc]
  rw [hshape]
  simp [parseVal]

theorem parse_render_all (fuel : Nat) :
    (∀ (v : Json) (rest : List Char), jsize v ≤ fuel → stopsNum rest = true →
        parseVal fuel (renderJ v ++ rest) = some (v, rest))
    ∧ (∀ (e : Json) (es : List Json) (rest : List Char),
        jsizeItems (e :: es) ≤ fuel →
        parseItems fuel (renderJ e ++ (renderMoreItems es ++ (']' :: rest)))
          = some (e :: es, rest))
    ∧ (∀ (k : String) (v : Json) (ms : List (String × Json)) (rest : List Char),
        jsizeFields ((k, v) :: ms) ≤ fuel →
        parseFields fuel (renderFields ((k, v) :: ms) ++ ('}' :: rest))
          = some ((k, v) :: ms, rest)) := by
  induction fuel using Nat.strong_induction_on with
  | _ fuel ih =>
  refine ⟨?_, ?_, ?_⟩
  · intro v rest hsz hrest
    have hpos := jsize_pos v
    cases fuel with
    | zero => omega
    | succ f =>
      obtain ⟨IH1, IH2, IH3⟩ := ih f (by omega)
      cases v with
      | null => simp [renderJ, parseVal]
      | bool b => cases b <;> simp [renderJ, parseVal]
      | num i =>
        obtain ⟨c0, t0, h0, hc0⟩ := natChars_head i.natAbs
        have hspan : digitsSpan (c0 :: (t0 ++ rest)) = (c0 :: t0, rest) := by
          have := digitsSpan_run (natChars_all_digits i.natAbs) hrest
          rw [h0] at this
          simpa using this
        have hread : readNat (c0 :: t0) = i.natAbs := by
          rw [← h0]; exact readNat_natChars _
        by_cases hneg : i < 0
        · have harg : renderJ (.num i) ++ rest = '-' :: (c0 :: (t0 ++ rest)) := by
            simp [renderJ, intChars, hneg, h0]
          rw [harg]
          simp [parseVal, hspan, hread]
          rw [abs_of_nonpos (le_of_lt hneg), neg_neg]
        · obtain ⟨hm, hn, hlb, ht, hlc, hf, hq, _, _, _, _, _⟩ :=
            digit_char_ne hc0
          have harg : renderJ (.num i) ++ rest = c0 :: (t0 ++ rest) := by
            simp [renderJ, intChars, hneg, h0]
          rw [harg]
          simp [parseVal, hn, ht, hf, hq, hlb, hlc, hm, hc0, hspan, hread]
          omega
      | str s =>
          have harg : renderJ (.str s) ++ rest
              = '"' :: (s.data.flatMap escChar ++ ('"' :: rest)) := by
            simp [renderJ, strChars]
          rw [harg]
          simp [parseVal, parseStrBody_strChars]
      | arr es =>
        cases es with
        | nil =>
            have harg : renderJ (.arr []) ++ rest = '[' :: (']' :: rest) := by
              simp [renderJ, renderItems]
            rw [harg]
            simp [parseVal]
        | cons e es =>
            have hsz2 : jsizeItems (e :: es) ≤ f := by
              simp only [jsize] at hsz; omega
            have harg : renderJ (.arr (e :: es)) ++ rest
                = '[' :: (renderJ e ++ (renderMoreItems es ++ (']' :: rest))) := by
              simp [renderJ, renderItems, List.append_assoc]
            rw [harg, parseVal_arr_step, IH2 e es rest hsz2]
            simp
      | obj ms =>
        cases ms with
        | nil =>
            have harg : renderJ (.obj []) ++ rest = '{' :: ('}' :: rest) := by
              simp [renderJ, renderFields]
            rw [harg]
            simp [parseVal]
        | cons m ms =>
            obtain ⟨k, w⟩ := m
            have hsz2 : jsizeFields ((k, w) :: ms) ≤ f := by
              simp only [jsize] at hsz; omega
            have harg : renderJ (.obj ((k, w) :: ms)) ++ rest
                = '{' :: (renderFields ((k, w) :: ms) ++ ('}' :: rest)) := by
              simp [renderJ, List.append_assoc]
            rw [harg, parseVal_obj_step, IH3 k w ms rest hsz2]
            simp
  · intro e es rest hsz
    cases fuel with
    | zero => simp [jsizeItems] at hsz
    | succ f =>
      obtain ⟨IH1, IH2, IH3⟩ := ih f (by omega)
      have hv : parseVal f (renderJ e ++ (renderMoreItems es ++ (']' :: rest)))
          = some (e, renderMoreItems es ++ (']' :: rest)) := by
        apply IH1
        · simp only [jsizeItems] at hsz; omega
        · exact moreItems_stop es rest
      cases es with
      | nil =>
          simp only [renderMoreItems, List.nil_append] at hv ⊢
          simp [parseItems, hv]
      | cons x xs =>
          have hxs : jsizeItems (x :: xs) ≤ f := by
            simp only [jsizeItems] at hsz ⊢; omega
          have htail := IH2 x xs rest hxs
          simp only [renderMoreItems, List.cons_append, List.append_assoc]
            at hv htail ⊢
          simp [parseItems, hv, htail]
  · intro k v ms rest hsz
    cases fuel with
    | zero => simp [jsizeFields] at hsz
    | succ f =>
      obtain ⟨IH1, IH2, IH3⟩ := ih f (by omega)
      have hv : parseVal f (renderJ v ++ (renderMoreFields ms ++ ('}' :: rest)))
          = some (v, renderMoreFields ms ++ ('}' :: rest)) := by
        apply IH1
        · simp only [jsizeFields] at hsz; omega
        · exact moreFields_stop ms rest
      have hshape : renderFields ((k, v) :: ms) ++ ('}' :: rest)
          = '"' :: (k.data.flatMap escChar
              ++ ('"' :: (':' :: (renderJ v
                  ++ (renderMoreFields ms ++ ('}' :: rest)))))) := by
        simp [renderFields, strChars, List.append_assoc]
      rw [hshape]
      cases ms with
      | nil =>
          simp only [renderMoreFields, List.nil_append] at hv ⊢
          simp [parseFields, parseStrBody_strChars, hv]
      | cons m ms2 =>
          obtain ⟨k2, v2⟩ := m
          have hms : jsizeFields ((k2, v2) :: ms2) ≤ f := by
            simp only [jsizeFields] at hsz ⊢; omega
          have htail := IH3 k2 v2 ms2 rest hms
          simp only [renderMoreFields, renderFields, strChars, List.cons_append,
            List.append_assoc, List.nil_append, List.singleton_append]
            at hv htail ⊢
          simp [parseFields, parseStrBody_strChars, hv, htail]

mutual
theorem jsize_le_render : ∀ v : Json, jsize v ≤ (renderJ v).length
  | .null => by simp [jsize, renderJ]
  | .bool b => by cases b <;> simp [jsize, renderJ]
  | .num i => by
      obtain ⟨c0, t0, h0, _⟩ := natChars_head i.natAbs
      by_cases hneg : i < 0 <;> simp [jsize, renderJ, intChars, hneg, h0]
  | .str s => by simp [jsize, renderJ, strChars]
  | .arr es => by
      cases es with
      | nil => simp [jsize, jsizeItems, renderJ, renderItems]
      | cons e es =>
          have h1 := jsize_le_render e
          have h2 := jsizeItems_le_render es
          simp only [jsize, jsizeItems, renderJ, renderItems, List.length_cons,
            List.length_append]
          omega
  | .obj ms => by
      cases ms with
      | nil => simp [jsize, jsizeFields, renderJ, renderFields]
      | cons m ms =>
          obtain ⟨k, v⟩ := m
          have h1 := jsize_le_render v
          have h2 := jsizeFields_le_render ms
          simp only [jsize, jsizeFields, renderJ, renderFields, strChars,
            List.length_cons, List.length_append]
          omega

theorem jsizeItems_le_render : ∀ es : List Json,
    jsizeItems es ≤ (renderMoreItems es).length
  | [] => by simp [jsizeItems, renderMoreItems]
  | e :: es => by
      have h1 := jsize_le_render e
      have h2 := jsizeItems_le_render es
      simp only [jsizeItems, renderMoreItems, List.length_cons,
        List.length_append]
      omega

theorem jsizeFields_le_render : ∀ ms : List (String × Json),
    jsizeFields ms ≤ (renderMoreFields ms).length
  | [] => by simp [jsizeFields, renderMoreFields]
  | (k, v) :: ms => by
      have h1 := jsize_le_render v
      have h2 := jsizeFields_le_render ms
      simp only [jsizeFields, renderMoreFields, strChars, List.length_cons,
        List.length_append]
      omega
end

/-- Serialization round-trip: parsing a serialized value recovers it exactly.
This is the `JSON.parse(JSON.stringify(x)) = x` law on the modelled domain. -/
theorem deserialize_stringify (v : Json) :
    Json.deserialize (Json.stringify v) = some v := by
  have hfuel : jsize v ≤ (renderJ v).length + 1 :=
    le_trans (jsize_le_render v) (Nat.le_succ _)
  have h := (parse_render_all ((renderJ v).length + 1)).1 v [] hfuel (by rfl)
  rw [List.append_nil] at h
  simp only [Json.deserialize, Json.stringify, h]

theorem lookup_append_or (l₁ l₂ : JsObj HVal) (k : String) :
    (l₁ ++ l₂).lookup k = ((l₁.lookup k).or (l₂.lookup k)) := by
  induction l₁ with
  | nil => simp [List.lookup]
  | cons kv t ih =>
      obtain ⟨k0, v0⟩ := kv
      by_cases hk : k = k0
      · subst hk; simp [List.lookup]
      · have hbeq : (k == k0) = false := by
          simp [hk]
        simp [List.lookup, hbeq, ih]

theorem lookup_map_override (base over : JsObj HVal) (k : String) :
    (base.map (fun kv => (kv.1, ((over.lookup kv.1).getD kv.2)))).lookup k
      = (base.lookup k).map (fun v => (over.lookup k).getD v) := by
  induction base with
  | nil => simp [List.lookup]
  | cons kv t ih =>
      obtain ⟨k0, v0⟩ := kv
      by_cases hk : k = k0
      · subst hk; simp [List.lookup]
      · have hbeq : (k == k0) = false := by
          simp [hk]
        simp [List.lookup, hbeq, ih]

theorem lookup_filter_of_not_base (base over : JsObj HVal) (k : String)
    (h : base.lookup k = none) :
    (over.filter (fun kv => (base.lookup kv.1).isNone)).lookup k
      = over.lookup k := by
  induction over with
  | nil => simp
  | cons kv t ih =>
      obtain ⟨k1, v1⟩ := kv
      by_cases hk : k = k1
      · subst hk
        simp [List.filter, h, List.lookup, ih]
      · have hbeq : (k == k1) = false := by
          simp [hk]
        by_cases hkeep : (base.lookup k1) = none
        · simp [List.filter, hkeep, List.lookup, hbeq, ih]
        · have hdrop : (base.lookup k1).isNone = false := by
            cases hb : base.lookup k1 with
            | none => exact absurd hb hkeep
            | some v => simp
          simp [List.filter, hdrop, List.lookup, hbeq, ih]

theorem lookup_spreadMerge (base over : JsObj HVal) (k : String) :
    (spreadMerge base over).lookup k
      = ((over.lookup k).or (base.lookup k)) := by
  unfold spreadMerge
  rw [lookup_append_or, lookup_map_override]
  cases hbk : base.lookup k with
  | none =>
      rw [lookup_filter_of_not_base base over k hbk]
      cases over.lookup k <;> simp
  | some v0 =>
      cases over.lookup k <;> simp

theorem deleteKey_of_lookup_none {α : Type} (o : JsObj α) (k : String)
    (h : o.lookup k = none) : deleteKey o k = o := by
  induction o with
  | nil => rfl
  | cons kv t ih =>
      obtain ⟨k0, v0⟩ := kv
      by_cases hk : k = k0
      · subst hk
        simp [List.lookup] at h
      · have hbeq : (k == k0) = false := by simp [hk]
        have hbeq2 : (k0 == k) = false := by simp [Ne.symm hk]
        simp only [List.lookup, hbeq] at h
        have ht := ih h
        unfold deleteKey at ht ⊢
        simp [List.filter_cons, hbeq2, ht]

theorem filter_deleteKey {α : Type} (item : JsObj α) (k : String)
    (p : String → Bool) :
    (deleteKey item k).filter (fun kv => p kv.1)
      = item.filter (fun kv => !(kv.1 == k) && p kv.1) := by
  unfold deleteKey
  rw [List.filter_filter]
  congr 1
  funext a
  rw [Bool.and_comm]

theorem strip_foldl_filter {α : Type} (ks : List String) :
    ∀ item : JsObj α,
      ks.foldl (fun c k => if (c.lookup k).isSome then deleteKey c k else c) item
        = item.filter (fun kv => !(ks.contains kv.1)) := by
  induction ks with
  | nil => intro item; simp
  | cons k ks ih =>
      intro item
      rw [List.foldl_cons]
      have hstep : (if (item.lookup k).isSome then deleteKey item k else item)
          = deleteKey item k := by
        cases hx : item.lookup k with
        | none => simp [hx, deleteKey_of_lookup_none item k hx]
        | some v => simp [hx]
      rw [hstep, ih]
      have hdel := filter_deleteKey item k (fun x => !(ks.contains x))
      rw [show (List.filter (fun kv => !ks.contains kv.1) (deleteKey item k))
            = List.filter (fun kv => !(kv.1 == k) && !(ks.contains kv.1)) item
          from hdel]
      congr 1
      funext kv
      by_cases hkk : kv.1 = k <;> simp [List.contains_cons, Bool.not_or, hkk]

theorem invokePipeline_logs (outcome : Except Thrown HandlerResult) :
    (invokePipeline outcome).1 = (baseHandler outcome).1 := by
  unfold invokePipeline
  cases h : (baseHandler outcome).2 <;> simp [h]

theorem baseHandler_error_logs (t : Thrown) :
    (baseHandler (.error t)).1
      = (LogCall.msg (match t with
          | .err _ m => m
          | .nonError _ => ("Unknown error"))) :: (errorHandler t).1 := rfl

theorem errorHandler_log_count (t : Thrown) :
    (errorHandler t).1.length = 2 := by
  cases t with
  | nonError d => rfl
  | err name message =>
      simp only [errorHandler]
      split_ifs <;> rfl

theorem or_isSome (a b : Option HVal) (h : b.isSome = true) :
    (a.or b).isSome = true := by
  cases a <;> simp [Option.or, h]

/-- C1: for every request and business function outcome — a normal
`HandlerResult` or a thrown value — one invocation of the wrapped handler
produces exactly one normalized response, and the caller of the pipeline
receives that response value, never a propagated exception. -/
theorem C1_pipeline_always_responds (outcome : Except Thrown HandlerResult) :
    ∃! r : ApiResult, (invokePipeline outcome).2 = .ok r := by
  unfold invokePipeline
  cases h : (baseHandler outcome).2 with
  | ok r =>
      refine ⟨r, by simp [h], ?_⟩
      intro y hy
      simp [h] at hy
      exact hy.symm
  | error e =>
      refine ⟨middyOnError e, by simp [h], ?_⟩
      intro y hy
      simp [h] at hy
      exact hy.symm

/-- C2: for each of the six known error kinds, a business function throwing
an error tagged with that kind yields the response with exactly the fixed
table status (Validation 400, Unauthorised 401, Forbidden 403, NotFound 404,
Conflict 409, TooManyRequests 429) and a body whose `error` field is the
error's message. -/
theorem C2_known_kinds_mapped (k : ErrorKind) (message : String) :
    (invokePipeline (.error (.err k.tag message))).2
      = .ok { statusCode := k.status,
              headers := getHeaders none,
              body := Json.stringify (errorBody message k.status) } := by
  cases k <;> rfl

/-- C3: every thrown value matching none of the six known kinds — a
non-`Error` value or an error with an unrecognised tag — produces the fixed
500 response with body fields `error = An error has occurred` and
`statusCode = 500`; the response is a constant, so the original error's
message never reaches the client. -/
theorem C3_unknown_is_generic_500 (t : Thrown) (h : knownThrown t = false) :
    (invokePipeline (.error t)).2
      = .ok { statusCode := 500,
              headers := getHeaders none,
              body := Json.stringify
                (errorBody ("An error has occurred") 500) } := by
  cases t with
  | nonError d => rfl
  | err name message =>
      have hu1 : ¬ name = ("ValidationError") := by
        intro e; rw [e] at h; simp [knownThrown, knownTags] at h
      have hu2 : ¬ name = ("ResourceNotFound") := by
        intro e; rw [e] at h; simp [knownThrown, knownTags] at h
      have hu3 : ¬ name = ("ConflictError") := by
        intro e; rw [e] at h; simp [knownThrown, knownTags] at h
      have hu4 : ¬ name = ("TooManyRequestsError") := by
        intro e; rw [e] at h; simp [knownThrown, knownTags] at h
      have hu5 : ¬ name = ("UnauthorisedError") := by
        intro e; rw [e] at h; simp [knownThrown, knownTags] at h
      have hu6 : ¬ name = ("ForbiddenError") := by
        intro e; rw [e] at h; simp [knownThrown, knownTags] at h
      simp [invokePipeline, baseHandler, errorHandler, hu1, hu2, hu3, hu4, hu5, hu6,
        middyOnError, createHttpError]

/-- Witness for C3 at the concrete unknown error `TypeError: DB down`. -/
theorem C3_witness :
    knownThrown (.err ("TypeError") ("DB down")) = false
    ∧ (invokePipeline (.error (.err ("TypeError") ("DB down")))).2
      = .ok { statusCode := 500,
              headers := getHeaders none,
              body := Json.stringify
                (errorBody ("An error has occurred") 500) } :=
  ⟨rfl, C3_unknown_is_generic_500 (.err ("TypeError") ("DB down")) rfl⟩

/-- C4: when the business function's `statusCode` field is absent the
response status is exactly 200, and when it is present — zero included — the
given value is used unchanged, so the default-to-200 rule fires only on
absence. -/
theorem C4_status_default_only_when_absent :
    (∀ body : Json,
        (invokePipeline (.ok ⟨none, body⟩)).2
          = .ok { statusCode := 200, headers := getHeaders none,
                  body := Json.stringify body })
    ∧ (∀ (n : Nat) (body : Json),
        (invokePipeline (.ok ⟨some n, body⟩)).2
          = .ok { statusCode := n, headers := getHeaders none,
                  body := Json.stringify body }) :=
  ⟨fun _ => rfl, fun _ _ => rfl⟩

/-- C5: with `statusCode` present and any serializable `body`, the response
keeps the given status code, and deserializing the response's serialized
body returns a value equal to the original body (round-trip). -/
theorem C5_response_roundtrip (n : Nat) (body : Json) :
    ∃ r : ApiResult,
      (invokePipeline (.ok ⟨some n, body⟩)).2 = .ok r
      ∧ r.statusCode = n
      ∧ Json.deserialize r.body = some body :=
  ⟨_, rfl, rfl, deserialize_stringify body⟩

/-- C6: merging any overrides into the headers gives, at every key, the
override's value when the key is overridden and the default value otherwise;
in particular each of the eleven default header keys is always present. -/
theorem C6_headers_merge (ov : JsObj HVal) (k : String) :
    ((getHeaders (some ov)).lookup k
        = ((ov.lookup k).or (defaultHeaders.lookup k)))
    ∧ (defaultHeaders.all
        (fun kv => ((getHeaders (some ov)).lookup kv.1).isSome)) = true := by
  constructor
  · exact lookup_spreadMerge defaultHeaders ov k
  · simp only [List.all_eq_true]
    intro kv hkv
    rw [show getHeaders (some ov) = spreadMerge defaultHeaders ov from rfl,
        lookup_spreadMerge]
    fin_cases hkv <;> exact or_isSome _ _ rfl

/-- C7 counterexample: on the error path the pipeline emits three
`logger.error` calls — the handler catch-block's message log, the raw
`private error:` log, and the classified structured log — not two as
claimed. -/
theorem C7_counterexample :
    ¬ ((invokePipeline (.error (.err ("ValidationError") ("boom")))).1.length
        = 2) := by
  have h3 : (invokePipeline
      (.error (.err ("ValidationError") ("boom")))).1.length = 3 := rfl
  omega

/-- C7 amended: the pipeline itself emits exactly three log calls on every
error path (the catch-block message log, the raw error log, and the
classified structured log) and zero log calls on the success path. -/
theorem C7_amended_log_counts :
    (∀ result : HandlerResult, (invokePipeline (.ok result)).1 = [])
    ∧ (∀ t : Thrown, (invokePipeline (.error t)).1.length = 3) := by
  constructor
  · intro result
    rfl
  · intro t
    rw [invokePipeline_logs, baseHandler_error_logs]
    simp [errorHandler_log_count t]

/-- C8: `stripInternalKeys` returns exactly the entries of the item whose
keys are in neither strip list, with their values unchanged; the embedding
acts on the copy the source creates, the input association list itself being
left untouched by construction. -/
theorem C8_strip_exact {α : Type} (item : JsObj α)
    (keysToStrip extraKeysToStrip : List String) :
    (stripInternalKeys item keysToStrip extraKeysToStrip
        = item.filter
            (fun kv => !((keysToStrip ++ extraKeysToStrip).contains kv.1)))
    ∧ ∀ (k : String) (v : α),
        ((k, v) ∈ stripInternalKeys item keysToStrip extraKeysToStrip
          ↔ ((k, v) ∈ item ∧ ¬ k ∈ keysToStrip ∧ ¬ k ∈ extraKeysToStrip)) := by
  have hmain := strip_foldl_filter (keysToStrip ++ extraKeysToStrip) item
  refine ⟨hmain, ?_⟩
  intro k v
  rw [show stripInternalKeys item keysToStrip extraKeysToStrip
        = item.filter
            (fun kv => !((keysToStrip ++ extraKeysToStrip).contains kv.1))
      from hmain]
  simp [List.mem_filter, List.mem_append, not_or]

/-- C9: `errorHandler` ends every execution path in a throw: for every input
its control-flow result is a thrown `HttpError`, never a normal return of
its declared `APIGatewayProxyResult` type. -/
theorem C9_errorHandler_always_throws (t : Thrown) :
    ∃ h : HttpError, (errorHandler t).2 = .error h := by
  cases t with
  | nonError d => exact ⟨_, rfl⟩
  | err name message =>
      simp only [errorHandler]
      split_ifs <;> exact Exists.intro _ rfl

/-- C10: with the environment variable `FLAG` set to `007`, the automatic
type-detection getter returns the number 7 — the boolean branch fails on the
value, the number branch succeeds first — and not the string `007`, so the
leading-zero padding is not preserved. -/
theorem C10_leading_zeros_become_number :
    get env007 [("FLAG")] = .ok [.num 7]
    ∧ getNumber env007 ("FLAG") = .ok 7
    ∧ (∃ e, getBoolean env007 ("FLAG") = .error e)
    ∧ Prim.num 7 ≠ Prim.str ("007") :=
  ⟨rfl, rfl, ⟨_, rfl⟩, by decide⟩
